import Mathlib

/-!
# Verification of the `enetx/fsm` finite-state-machine engine

Shallow embedding of the Go sources (`fsm.go`, `json.go`, `context.go`,
`errors.go`, `types.go`) of the `enetx/fsm` repository, together with
theorems settling the frozen specification claims about the transition
execution engine and the snapshot codec.

Modelling conventions:
* Go `State`/`Event` (wrappers around `g.String`) are Lean `String`s.
* Go `any` values stored in `Context.Input` are `Option String`
  (`none` models Go `nil`); the values held in `Data`/`Meta` are
  `String`s — the engine never inspects them, so their type is irrelevant.
* Go maps (`g.Map`, `g.MapSafe`) are association lists with `==` lookup;
  the engine only uses `Get`/`Entry` insertion-order-preserving access.
* Caller-supplied callbacks mutate the shared `*Context`; they are
  modelled as functions `Ctx → CbRes × Ctx` where `CbRes` records a
  normal return, an error return, or a raised runtime fault (Go `panic`).
* Guards (`func(*Context) bool`) are modelled as `Ctx → GdRes`; `GdRes`
  is a boolean or a raised runtime fault.
* `FSM.Trigger` additionally returns an instrumentation trace (`List Ev`)
  recording, in execution order, every callback/hook invocation and the
  commit point; this is the "order-recording test double" of the spec.
-/

/-- A state label (Go `State`, a `g.String`). -/
abbrev State := String

/-- An event label (Go `Event`, a `g.String`). -/
abbrev Event := String

/-- Type `Context` from `context.go`: the shared mutable data bag.
`state` is `Context.State`, `input` is `Context.Input` (with `none` for
Go `nil`), `data`/`meta` are the persistent key-value stores. -/
structure Ctx where
  state : State
  input : Option String
  data : List (String × String)
  meta : List (String × String)
deriving Repr, DecidableEq

/-- Result of running a caller-supplied callback or hook: normal return,
an error return (Go `return err`), or a runtime fault (Go `panic`). -/
inductive CbRes where
  | ok : CbRes
  | err (msg : String) : CbRes
  | fault (msg : String) : CbRes
deriving Repr, DecidableEq

/-- Result of evaluating a caller-supplied guard: a boolean, or a runtime
fault (Go `panic`). -/
inductive GdRes where
  | val (b : Bool) : GdRes
  | fault (msg : String) : GdRes

/-- Type `Callback` from `types.go`: `func(ctx *Context) error`.  It may mutate
the shared context, so it returns the updated context alongside its
result. -/
abbrev Callback := Ctx → CbRes × Ctx

/-- Type `GuardFunc` from `types.go`: `func(ctx *Context) bool`. -/
abbrev GuardFunc := Ctx → GdRes

/-- Type `TransitionHook` from `types.go`:
`func(from, to State, event Event, ctx *Context) error`. -/
abbrev TransitionHook := State → State → Event → Ctx → CbRes × Ctx

/-- The internal `transition` struct from `types.go`. -/
structure transition where
  event : Event
  tgt : State
  guard : Option GuardFunc

/-- The `FSM` struct from `types.go`. -/
structure FSM where
  initial : State
  current : State
  history : List State
  transitions : List (State × List transition)
  onEnter : List (State × List Callback)
  onExit : List (State × List Callback)
  onTransition : List TransitionHook
  ctx : Ctx

/-- The error taxonomy from `errors.go`: `ErrInvalidTransition`,
`ErrAmbiguousTransition`, `ErrCallback` (hook type, state — empty for
global hooks — and wrapped cause), `ErrUnknownState`, and the wrapped
`encoding/json` parse failure of `UnmarshalJSON`. -/
inductive Err where
  | invalidTransition (src : State) (event : Event) : Err
  | ambiguousTransition (src : State) (event : Event) : Err
  | callback (hookType : String) (state : State) (msg : String) : Err
  | unknownState (state : State) : Err
  | parse (msg : String) : Err
deriving Repr, DecidableEq

/-- Result of `FSM.Trigger`: normal return (`nil` error), a returned
error, or a runtime fault that unwound out of `Trigger` uncaught. -/
inductive TrigRes where
  | ok : TrigRes
  | err (e : Err) : TrigRes
  | fault (msg : String) : TrigRes
deriving Repr, DecidableEq

/-- Instrumentation events recorded by the embedded engine: invocation of
the `i`-th exit callback of `s`, the `i`-th global transition hook, the
`i`-th entry callback of `s`, and the commit of `current`/`history`. -/
inductive Ev where
  | exit (s : State) (i : Nat) : Ev
  | hook (i : Nat) : Ev
  | enter (s : State) (i : Nat) : Ev
  | commit : Ev
deriving Repr, DecidableEq

/-- Association-list lookup, modelling `g.Map.Get`. -/
def alookup {α : Type} : List (State × α) → State → Option α
  | [], _ => none
  | (k, v) :: rest, s => if k == s then some v else alookup rest s

/-- Models `g.Map.Entry(k).AndModify(push v).OrInsert([v])`: append `v` to the
list at key `k`, inserting a singleton when the key is absent. -/
def entryPush {α : Type} : List (State × List α) → State → α → List (State × List α)
  | [], k, v => [(k, [v])]
  | (k', vs) :: rest, k, v =>
      if k' == k then (k', vs ++ [v]) :: rest else (k', vs) :: entryPush rest k v

/-- Function `newContext` from `context.go`. -/
def newContext (initial : State) : Ctx :=
  { state := initial, input := none, data := [], meta := [] }

/-- Function `New` from `fsm.go`. -/
def New (initial : State) : FSM :=
  { initial := initial
    current := initial
    history := [initial]
    transitions := []
    onEnter := []
    onExit := []
    onTransition := []
    ctx := newContext initial }

/-- Method `FSM.Clone` from `fsm.go`: same configuration, fresh runtime state. -/
def FSM.Clone (f : FSM) : FSM :=
  { initial := f.initial
    current := f.initial
    history := [f.initial]
    transitions := f.transitions
    onEnter := f.onEnter
    onExit := f.onExit
    onTransition := f.onTransition
    ctx := newContext f.initial }

/-- Method `FSM.TransitionWhen` from `fsm.go`. -/
def FSM.TransitionWhen (f : FSM) (src : State) (event : Event) (tgt : State)
    (guard : Option GuardFunc) : FSM :=
  { f with transitions := entryPush f.transitions src ⟨event, tgt, guard⟩ }

/-- Method `FSM.Transition` from `fsm.go`. -/
def FSM.Transition (f : FSM) (src : State) (event : Event) (tgt : State) : FSM :=
  f.TransitionWhen src event tgt none

/-- Method `FSM.OnEnter` from `fsm.go`. -/
def FSM.OnEnter (f : FSM) (state : State) (cb : Callback) : FSM :=
  { f with onEnter := entryPush f.onEnter state cb }

/-- Method `FSM.OnExit` from `fsm.go`. -/
def FSM.OnExit (f : FSM) (state : State) (cb : Callback) : FSM :=
  { f with onExit := entryPush f.onExit state cb }

/-- Method `FSM.OnTransition` from `fsm.go`. -/
def FSM.OnTransition (f : FSM) (hook : TransitionHook) : FSM :=
  { f with onTransition := f.onTransition ++ [hook] }

/-- Method `FSM.Reset` from `fsm.go`. -/
def FSM.Reset (f : FSM) : FSM :=
  { f with current := f.initial, ctx := newContext f.initial, history := [f.initial] }

/-- Method `FSM.SetState` from `fsm.go`. -/
def FSM.SetState (f : FSM) (s : State) : FSM :=
  { f with current := s, ctx := { f.ctx with state := s } }

/-- Method `FSM.States` from `fsm.go`: `{initial} ∪ sources ∪ targets`, here as
a list whose membership agrees with the Go set. -/
def FSM.StatesList (f : FSM) : List State :=
  f.initial :: (f.transitions.map (fun p => p.1 :: p.2.map transition.tgt)).flatten

/-- Membership test `states().Contains(s)`, as used by `UnmarshalJSON`. -/
def FSM.stateContains (f : FSM) (s : State) : Bool :=
  f.StatesList.contains s

/-- Method `FSM.executeCallback` from `fsm.go`: runs one callback, converting an
error return or a recovered panic into `ErrCallback{hookType, state, …}`. -/
def executeCallback (cb : Callback) (hookType : String) (state : State)
    (ctx : Ctx) : Option Err × Ctx :=
  match cb ctx with
  | (.ok, ctx') => (none, ctx')
  | (.err m, ctx') => (some (.callback hookType state m), ctx')
  | (.fault m, ctx') => (some (.callback hookType state ("panic: " ++ m)), ctx')

/-- The `for cb := range cbs { if err := f.executeCallback(...) }` loops of
`Trigger` and `CallEnter`: run callbacks in registration order, stopping
at the first failure; `mk i` is the trace event for the `i`-th
invocation. -/
def runCbs (mk : Nat → Ev) (hookType : String) (state : State) :
    List Callback → Ctx → Nat → Option Err × Ctx × List Ev
  | [], ctx, _ => (none, ctx, [])
  | cb :: rest, ctx, i =>
      match executeCallback cb hookType state ctx with
      | (some e, ctx') => (some e, ctx', [mk i])
      | (none, ctx') =>
          match runCbs mk hookType state rest ctx' (i + 1) with
          | (r, ctx'', tr) => (r, ctx'', mk i :: tr)

/-- The global transition-hook loop of `Trigger`: each hook runs inside
its own recover scope; an error return or a recovered panic becomes
`ErrCallback{HookType: "OnTransition"}` (no state). -/
def runHooks (prev next : State) (event : Event) :
    List TransitionHook → Ctx → Nat → Option Err × Ctx × List Ev
  | [], ctx, _ => (none, ctx, [])
  | h :: rest, ctx, i =>
      match h prev next event ctx with
      | (.ok, ctx') =>
          match runHooks prev next event rest ctx' (i + 1) with
          | (r, ctx'', tr) => (r, ctx'', Ev.hook i :: tr)
      | (.err m, ctx') => (some (.callback "OnTransition" "" m), ctx', [Ev.hook i])
      | (.fault m, ctx') =>
          (some (.callback "OnTransition" "" ("panic: " ++ m)), ctx', [Ev.hook i])

/-- The `Exclude(...).Collect()` filter of `Trigger`: keep transitions
whose event matches and whose guard is absent or returns `true`.  Go's
`||` short-circuits, so a guard is only evaluated when the event matches;
a guard panic unwinds immediately (modelled as `.error`). -/
def collectMatches : List transition → Event → Ctx → Except String (List transition)
  | [], _, _ => .ok []
  | t :: rest, event, ctx =>
      if t.event == event then
        match t.guard with
        | none => (collectMatches rest event ctx).map (t :: ·)
        | some g =>
            match g ctx with
            | .val true => (collectMatches rest event ctx).map (t :: ·)
            | .val false => collectMatches rest event ctx
            | .fault m => .error m
      else collectMatches rest event ctx

/-- Output of the embedded `Trigger`: the Go return value, the engine
after the call, and the instrumentation trace. -/
structure TrigOut where
  res : TrigRes
  fsm : FSM
  trace : List Ev

/-- Core of `FSM.Trigger` from `fsm.go`, lines 142–206: everything after the
input overwrite.  Operates on an engine whose `ctx.Input` has already
been set. -/
def FSM.TriggerCore (f : FSM) (event : Event) : TrigOut :=
  match alookup f.transitions f.current with
  | none => ⟨.err (.invalidTransition f.current event), f, []⟩
  | some ts =>
      match collectMatches ts event f.ctx with
      | .error m => ⟨.fault m, f, []⟩
      | .ok matched =>
          match matched with
          | [] => ⟨.err (.invalidTransition f.current event), f, []⟩
          | _ :: _ :: _ => ⟨.err (.ambiguousTransition f.current event), f, []⟩
          | [t] =>
              match runCbs (Ev.exit f.current) "OnExit" f.current
                  ((alookup f.onExit f.current).getD [])
                  { f.ctx with state := f.current } 0 with
              | (some e, ctx2, tr1) => ⟨.err e, { f with ctx := ctx2 }, tr1⟩
              | (none, ctx2, tr1) =>
                  match runHooks f.current t.tgt event f.onTransition
                      { ctx2 with state := t.tgt } 0 with
                  | (some e, ctx4, tr2) => ⟨.err e, { f with ctx := ctx4 }, tr1 ++ tr2⟩
                  | (none, ctx4, tr2) =>
                      match runCbs (Ev.enter t.tgt) "OnEnter" t.tgt
                          ((alookup f.onEnter t.tgt).getD []) ctx4 0 with
                      | (some e, ctx5, tr3) =>
                          ⟨.err e, { f with ctx := ctx5 }, tr1 ++ tr2 ++ tr3⟩
                      | (none, ctx5, tr3) =>
                          ⟨.ok,
                           { f with current := t.tgt, history := f.history ++ [t.tgt],
                                    ctx := ctx5 },
                           tr1 ++ tr2 ++ tr3 ++ [Ev.commit]⟩

/-- The input overwrite of `Trigger` (lines 136–140): `input[0]` when the
variadic list is non-empty, Go `nil` otherwise. -/
def firstInput : List (Option String) → Option String
  | [] => none
  | x :: _ => x

/-- Method `FSM.Trigger` from `fsm.go`: overwrite `ctx.Input` unconditionally,
then run the matching and callback phases. -/
def FSM.Trigger (f : FSM) (event : Event) (input : List (Option String)) : TrigOut :=
  FSM.TriggerCore { f with ctx := { f.ctx with input := firstInput input } } event

/-- Method `FSM.CallEnter` from `fsm.go`: set `ctx.State`, run the state's entry
callbacks; does not touch `current`/`history`. -/
def FSM.CallEnter (f : FSM) (state : State) : Option Err × FSM :=
  match runCbs (Ev.enter state) "OnEnter" state
      ((alookup f.onEnter state).getD []) { f.ctx with state := state } 0 with
  | (r, ctx', _) => (r, { f with ctx := ctx' })

/-- The serializable `FSMState` struct from `json.go`. -/
structure FSMState where
  current : State
  history : List State
  data : List (String × String)
  meta : List (String × String)
deriving Repr, DecidableEq

/-- A snapshot payload as seen on the wire: each of the four fields may be
present or absent. -/
structure Payload where
  current : Option State
  history : Option (List State)
  data : Option (List (String × String))
  meta : Option (List (String × String))
deriving Repr, DecidableEq

/-- Raw bytes handed to `UnmarshalJSON`: either a well-formed JSON object
(with any subset of the four fields) or malformed input on which
`json.Unmarshal` fails. -/
inductive RawPayload where
  | wellFormed (p : Payload) : RawPayload
  | malformed (msg : String) : RawPayload
deriving Repr, DecidableEq

/-- Models `json.Unmarshal(data, &state)` into `FSMState`: malformed input is an
error; in a well-formed object every missing field is filled with its Go
zero value (empty string, nil slice, nil map). -/
def parsePayload : RawPayload → Except Err FSMState
  | .malformed m => .error (.parse m)
  | .wellFormed p =>
      .ok { current := p.current.getD ""
            history := p.history.getD []
            data := p.data.getD []
            meta := p.meta.getD [] }

/-- Method `FSM.MarshalJSON` from `json.go`: always emits all four fields. -/
def FSM.MarshalJSON (f : FSM) : RawPayload :=
  .wellFormed { current := some f.current
                history := some f.history
                data := some f.ctx.data
                meta := some f.ctx.meta }

/-- Method `FSM.UnmarshalJSON` from `json.go`: parse, validate `current` against
`states()`, validate each history entry in order, then commit all fields
at once. -/
def FSM.UnmarshalJSON (f : FSM) (raw : RawPayload) : Except Err Unit × FSM :=
  match parsePayload raw with
  | .error e => (.error e, f)
  | .ok st =>
      if !(f.stateContains st.current) then
        (.error (.unknownState st.current), f)
      else
        match st.history.find? (fun s => !(f.stateContains s)) with
        | some s => (.error (.unknownState s), f)
        | none =>
            (.ok (),
             { f with
                current := st.current
                history := st.history
                ctx := { f.ctx with state := st.current, data := st.data, meta := st.meta } })

/-! ## Specification-side definitions -/

/-- Specification-side reading of step 3 of the trigger algorithm: the
current state's transition list filtered to entries whose event equals
the triggered event and whose guard is absent or evaluates to `true`. -/
def specMatches (ts : List transition) (event : Event) (ctx : Ctx) : List transition :=
  ts.filter (fun t =>
    t.event == event &&
      (match t.guard with
       | none => true
       | some g => match g ctx with | .val b => b | .fault _ => false))

/-- No guard of an event-matching entry raises a runtime fault on `ctx`. -/
def noGuardPanic (ts : List transition) (event : Event) (ctx : Ctx) : Prop :=
  ∀ t ∈ ts, t.event == event → ∀ g, t.guard = some g → ∃ b, g ctx = .val b

/-- A callback that never rewrites `Context.State`. -/
def cbKeepsState (cb : Callback) : Prop :=
  ∀ c, ((cb c).2).state = c.state

/-- A transition hook that never rewrites `Context.State`. -/
def hookKeepsState (h : TransitionHook) : Prop :=
  ∀ p n e c, ((h p n e c).2).state = c.state

/-- All callbacks and hooks registered on `f` leave `Context.State`
alone (the engine itself owns that field). -/
def FSM.stateTame (f : FSM) : Prop :=
  (∀ s cb, cb ∈ (alookup f.onExit s).getD [] → cbKeepsState cb) ∧
  (∀ s cb, cb ∈ (alookup f.onEnter s).getD [] → cbKeepsState cb) ∧
  (∀ h ∈ f.onTransition, hookKeepsState h)

/-- A callback that never rewrites `Context.Input`. -/
def cbKeepsInput (cb : Callback) : Prop :=
  ∀ c, ((cb c).2).input = c.input

/-- A transition hook that never rewrites `Context.Input`. -/
def hookKeepsInput (h : TransitionHook) : Prop :=
  ∀ p n e c, ((h p n e c).2).input = c.input

/-- All callbacks and hooks registered on `f` leave `Context.Input`
alone. -/
def FSM.inputTame (f : FSM) : Prop :=
  (∀ s cb, cb ∈ (alookup f.onExit s).getD [] → cbKeepsInput cb) ∧
  (∀ s cb, cb ∈ (alookup f.onEnter s).getD [] → cbKeepsInput cb) ∧
  (∀ h ∈ f.onTransition, hookKeepsInput h)

/-- Two engines share one configuration (initial state, transition
table, callback registries, hook list) — the situation of `Clone` and of
the snapshot round-trip law. -/
def sameConfig (a b : FSM) : Prop :=
  a.initial = b.initial ∧ a.transitions = b.transitions ∧
  a.onEnter = b.onEnter ∧ a.onExit = b.onExit ∧ a.onTransition = b.onTransition

/-- The public mutating/configuring operations other than snapshot
decode, for reachability statements. -/
inductive Op where
  | trigger (event : Event) (input : List (Option String)) : Op
  | reset : Op
  | setState (s : State) : Op
  | callEnter (s : State) : Op
  | transitionWhen (src : State) (event : Event) (tgt : State) (g : Option GuardFunc) : Op
  | onEnter (s : State) (cb : Callback) : Op
  | onExit (s : State) (cb : Callback) : Op
  | onTransition (h : TransitionHook) : Op

/-- Apply one public operation, keeping the resulting engine. -/
def applyOp (f : FSM) : Op → FSM
  | .trigger ev inp => (f.Trigger ev inp).fsm
  | .reset => f.Reset
  | .setState s => f.SetState s
  | .callEnter s => (f.CallEnter s).2
  | .transitionWhen src ev tgt g => f.TransitionWhen src ev tgt g
  | .onEnter s cb => f.OnEnter s cb
  | .onExit s cb => f.OnExit s cb
  | .onTransition h => f.OnTransition h

/-- Run a sequence of public operations. -/
def runOps (f : FSM) (ops : List Op) : FSM :=
  ops.foldl applyOp f

/-- The history invariant of the spec: non-empty, starting at the
initial state. -/
def histInv (f : FSM) : Prop :=
  f.history ≠ [] ∧ f.history.head? = some f.initial

/-! ## Demonstration engines for witnesses and counterexamples -/

/-- A callback that succeeds without touching the context. -/
def cbOk : Callback := fun c => (.ok, c)

/-- A callback that returns the error `"nope"`. -/
def cbFail : Callback := fun c => (.err "nope", c)

/-- A transition hook that succeeds without touching the context. -/
def hookOk : TransitionHook := fun _ _ _ c => (.ok, c)

/-- Engine `a --go--> b` with one exit callback, one hook, one entry callback. -/
def demoOk : FSM :=
  ((((New "a").Transition "a" "go" "b").OnExit "a" cbOk).OnTransition hookOk).OnEnter "b" cbOk

/-- Engine `a --go--> b` whose entry callback for `b` fails. -/
def demoFail : FSM :=
  ((New "a").Transition "a" "go" "b").OnEnter "b" cbFail

/-- Two guardless transitions from `a` on `go`: ambiguous configuration. -/
def demoAmb : FSM :=
  (((New "a").Transition "a" "go" "b").Transition "a" "go" "c")

/-- Engine `a --go--> b` guarded by a guard that raises a runtime fault. -/
def demoGuardFault : FSM :=
  (New "a").TransitionWhen "a" "go" "b" (some (fun _ => .fault "boom"))

/-- Engine `a --go--> b` whose entry callback for `b` raises a runtime fault. -/
def demoCbFault : FSM :=
  ((New "a").Transition "a" "go" "b").OnEnter "b" (fun c => (.fault "kaboom", c))

/-- Engine used by the decode witnesses: a single configured state. -/
def E5 : FSM := New "idle"

/-- Payload whose second history entry is not a configured state. -/
def pl5 : RawPayload :=
  .wellFormed { current := some "idle", history := some ["idle", "zzz"],
                data := some [], meta := some [] }

/-- Engine `idle --go--> run`, the configuration shared by the round-trip
demonstrations. -/
def demoRtBase : FSM := (New "idle").Transition "idle" "go" "run"

/-- Engine `demoRtBase` after one successful trigger: `current = "run"`,
`history = ["idle", "run"]`. -/
def demoRt : FSM := (demoRtBase.Trigger "go" []).fsm

/-- Engine `idle --go--> run`, used by the decode counterexamples. -/
def E8 : FSM := (New "idle").Transition "idle" "go" "run"

/-- A decodable payload whose history does not start at the initial
state. -/
def pl8 : RawPayload :=
  .wellFormed { current := some "run", history := some ["run"],
                data := some [], meta := some [] }

/-! ## Helper lemmas -/

lemma range_map_shift {α : Type} (mk : Nat → α) (n i : Nat) :
    (List.range (n + 1)).map (fun j => mk (i + j)) =
      mk i :: (List.range n).map (fun j => mk (i + 1 + j)) := by
  rw [List.range_succ_eq_map]
  simp only [List.map_cons, List.map_map, Function.comp, Nat.add_zero]
  refine congrArg _ (List.map_congr_left ?_)
  intro j _
  have h : i + Nat.succ j = i + 1 + j := by omega
  simp [h]

lemma runCbs_none_trace (mk : Nat → Ev) (ht : String) (st : State) :
    ∀ (cbs : List Callback) (ctx : Ctx) (i : Nat),
      (runCbs mk ht st cbs ctx i).1 = none →
      (runCbs mk ht st cbs ctx i).2.2 =
        (List.range cbs.length).map (fun j => mk (i + j)) := by
  intro cbs
  induction cbs with
  | nil => intro ctx i _; simp [runCbs]
  | cons cb rest ih =>
    intro ctx i h
    simp only [runCbs] at h ⊢
    rcases hec : executeCallback cb ht st ctx with ⟨(_ | e), ctx'⟩
    · rcases hrc : runCbs mk ht st rest ctx' (i + 1) with ⟨r1, ctx'', tr⟩
      simp only [hec, hrc] at h ⊢
      subst h
      have := ih ctx' (i + 1)
      rw [hrc] at this
      simp only [List.length_cons, range_map_shift]
      exact congrArg _ (this rfl)
    · simp [hec] at h

lemma runHooks_none_trace (prev next : State) (event : Event) :
    ∀ (hs : List TransitionHook) (ctx : Ctx) (i : Nat),
      (runHooks prev next event hs ctx i).1 = none →
      (runHooks prev next event hs ctx i).2.2 =
        (List.range hs.length).map (fun j => Ev.hook (i + j)) := by
  intro hs
  induction hs with
  | nil => intro ctx i _; simp [runHooks]
  | cons h0 rest ih =>
    intro ctx i h
    simp only [runHooks] at h ⊢
    rcases hec : h0 prev next event ctx with ⟨r0, ctx'⟩
    cases r0 with
    | ok =>
      rcases hrc : runHooks prev next event rest ctx' (i + 1) with ⟨r1, ctx'', tr⟩
      simp only [hec, hrc] at h ⊢
      subst h
      have := ih ctx' (i + 1)
      rw [hrc] at this
      simp only [List.length_cons, range_map_shift]
      exact congrArg _ (this rfl)
    | err m => simp [hec] at h
    | fault m => simp [hec] at h

lemma runCbs_trace_mem (mk : Nat → Ev) (ht : String) (st : State) :
    ∀ (cbs : List Callback) (ctx : Ctx) (i : Nat) (e : Ev),
      e ∈ (runCbs mk ht st cbs ctx i).2.2 → ∃ j, e = mk j := by
  intro cbs
  induction cbs with
  | nil => intro ctx i e he; simp [runCbs] at he
  | cons cb rest ih =>
    intro ctx i e he
    simp only [runCbs] at he
    rcases hec : executeCallback cb ht st ctx with ⟨(_ | e0), ctx'⟩
    · rcases hrc : runCbs mk ht st rest ctx' (i + 1) with ⟨r1, ctx'', tr⟩
      simp only [hec, hrc, List.mem_cons] at he
      rcases he with he | he
      · exact ⟨i, he⟩
      · have := ih ctx' (i + 1) e
        rw [hrc] at this
        exact this he
    · simp only [hec, List.mem_singleton] at he
      exact ⟨i, he⟩

lemma runHooks_trace_mem (prev next : State) (event : Event) :
    ∀ (hs : List TransitionHook) (ctx : Ctx) (i : Nat) (e : Ev),
      e ∈ (runHooks prev next event hs ctx i).2.2 → ∃ j, e = Ev.hook j := by
  intro hs
  induction hs with
  | nil => intro ctx i e he; simp [runHooks] at he
  | cons h0 rest ih =>
    intro ctx i e he
    simp only [runHooks] at he
    rcases hec : h0 prev next event ctx with ⟨r0, ctx'⟩
    cases r0 with
    | ok =>
      rcases hrc : runHooks prev next event rest ctx' (i + 1) with ⟨r1, ctx'', tr⟩
      simp only [hec, hrc, List.mem_cons] at he
      rcases he with he | he
      · exact ⟨i, he⟩
      · have := ih ctx' (i + 1) e
        rw [hrc] at this
        exact this he
    | err m =>
      simp only [hec, List.mem_singleton] at he
      exact ⟨i, he⟩
    | fault m =>
      simp only [hec, List.mem_singleton] at he
      exact ⟨i, he⟩

lemma runCbs_keeps {α : Type} (φ : Ctx → α) (mk : Nat → Ev) (ht : String) (st : State) :
    ∀ (cbs : List Callback), (∀ cb ∈ cbs, ∀ c, φ ((cb c).2) = φ c) →
      ∀ (ctx : Ctx) (i : Nat), φ ((runCbs mk ht st cbs ctx i).2.1) = φ ctx := by
  intro cbs
  induction cbs with
  | nil => intro _ ctx i; simp [runCbs]
  | cons cb rest ih =>
    intro hall ctx i
    simp only [runCbs]
    have hcb := hall cb (List.mem_cons_self cb rest)
    rcases hec : executeCallback cb ht st ctx with ⟨(_ | e0), ctx'⟩ <;>
    · have hctx' : φ ctx' = φ ctx := by
        have := hcb ctx
        unfold executeCallback at hec
        rcases hcc : cb ctx with ⟨rc, c2⟩
        rw [hcc] at hec this
        cases rc <;> simp_all
      rcases hrc : runCbs mk ht st rest ctx' (i + 1) with ⟨r1, ctx'', tr⟩
      have := ih (fun c hc => hall c (List.mem_cons_of_mem cb hc)) ctx' (i + 1)
      rw [hrc] at this
      simp only [hec, hrc]
      simp only at this
      simp [this, hctx']

lemma runHooks_keeps {α : Type} (φ : Ctx → α) (prev next : State) (event : Event) :
    ∀ (hs : List TransitionHook), (∀ h ∈ hs, ∀ c, φ ((h prev next event c).2) = φ c) →
      ∀ (ctx : Ctx) (i : Nat),
        φ ((runHooks prev next event hs ctx i).2.1) = φ ctx := by
  intro hs
  induction hs with
  | nil => intro _ ctx i; simp [runHooks]
  | cons h0 rest ih =>
    intro hall ctx i
    simp only [runHooks]
    have hh := hall h0 (List.mem_cons_self h0 rest)
    rcases hec : h0 prev next event ctx with ⟨r0, ctx'⟩
    have hctx' : φ ctx' = φ ctx := by
      have := hh ctx
      rw [hec] at this
      exact this
    cases r0 with
    | ok =>
      rcases hrc : runHooks prev next event rest ctx' (i + 1) with ⟨r1, ctx'', tr⟩
      have := ih (fun h hm => hall h (List.mem_cons_of_mem h0 hm)) ctx' (i + 1)
      rw [hrc] at this
      simp only [hec, hrc]
      simp only at this
      simp [this, hctx']
    | err m => simp [hec, hctx']
    | fault m => simp [hec, hctx']

lemma collectMatches_eq_spec :
    ∀ (ts : List transition) (event : Event) (ctx : Ctx),
      noGuardPanic ts event ctx →
      collectMatches ts event ctx = .ok (specMatches ts event ctx) := by
  intro ts
  induction ts with
  | nil => intro event ctx _; simp [collectMatches, specMatches]
  | cons t rest ih =>
    intro event ctx h
    have hrest : noGuardPanic rest event ctx :=
      fun t' ht' => h t' (List.mem_cons_of_mem t ht')
    simp only [collectMatches, specMatches, List.filter_cons]
    by_cases hev : t.event == event
    · simp only [hev, if_pos rfl]
      cases hg : t.guard with
      | none =>
        simp [hev, hg, ih event ctx hrest, specMatches, Except.map]
      | some g =>
        obtain ⟨b, hb⟩ := h t (List.mem_cons_self t rest) hev g hg
        cases b with
        | true => simp [hev, hg, hb, ih event ctx hrest, specMatches, Except.map]
        | false => simp [hev, hg, hb, ih event ctx hrest, specMatches]
    · simp only [Bool.not_eq_true] at hev
      simp [hev, ih event ctx hrest, specMatches]

lemma stateContains_congr (a b : FSM) (h : sameConfig a b) (s : State) :
    a.stateContains s = b.stateContains s := by
  obtain ⟨hi, ht, _⟩ := h
  simp [FSM.stateContains, FSM.StatesList, hi, ht]

lemma triggerCore_frame (f : FSM) (event : Event) :
    (f.TriggerCore event).res = .ok ∨
      ((f.TriggerCore event).fsm.current = f.current ∧
       (f.TriggerCore event).fsm.history = f.history) := by
  unfold FSM.TriggerCore
  repeat' split
  all_goals simp

lemma triggerCore_initial (f : FSM) (event : Event) :
    (f.TriggerCore event).fsm.initial = f.initial := by
  unfold FSM.TriggerCore
  repeat' split
  all_goals simp

lemma triggerCore_history (f : FSM) (event : Event) :
    (f.TriggerCore event).fsm.history = f.history ∨
      ∃ s, (f.TriggerCore event).fsm.history = f.history ++ [s] := by
  unfold FSM.TriggerCore
  repeat' split
  all_goals simp

lemma triggerCore_ok_spec (f : FSM) (event : Event)
    (h : (f.TriggerCore event).res = .ok) :
    ∃ next,
      (f.TriggerCore event).fsm.current = next ∧
      (f.TriggerCore event).fsm.history = f.history ++ [next] ∧
      (f.TriggerCore event).trace =
        (List.range ((alookup f.onExit f.current).getD []).length).map (Ev.exit f.current)
          ++ (List.range f.onTransition.length).map Ev.hook
          ++ (List.range ((alookup f.onEnter next).getD []).length).map (Ev.enter next)
          ++ [Ev.commit] := by
  rcases h1 : alookup f.transitions f.current with _ | ts
  · simp [FSM.TriggerCore, h1] at h
  · rcases h2 : collectMatches ts event f.ctx with m | matched
    · simp [FSM.TriggerCore, h1, h2] at h
    · rcases matched with _ | ⟨t, _ | ⟨t2, rest⟩⟩
      · simp [FSM.TriggerCore, h1, h2] at h
      · rcases h3 : runCbs (Ev.exit f.current) "OnExit" f.current
            ((alookup f.onExit f.current).getD [])
            { f.ctx with state := f.current } 0 with ⟨(_ | e1), ctx2, tr1⟩
        · rcases h4 : runHooks f.current t.tgt event f.onTransition
              { ctx2 with state := t.tgt } 0 with ⟨(_ | e2), ctx4, tr2⟩
          · rcases h5 : runCbs (Ev.enter t.tgt) "OnEnter" t.tgt
                ((alookup f.onEnter t.tgt).getD []) ctx4 0 with ⟨(_ | e3), ctx5, tr3⟩
            · refine ⟨t.tgt, ?_⟩
              have e1 := runCbs_none_trace (Ev.exit f.current) "OnExit" f.current
                ((alookup f.onExit f.current).getD []) { f.ctx with state := f.current } 0
              have e2 := runHooks_none_trace f.current t.tgt event f.onTransition
                { ctx2 with state := t.tgt } 0
              have e3 := runCbs_none_trace (Ev.enter t.tgt) "OnEnter" t.tgt
                ((alookup f.onEnter t.tgt).getD []) ctx4 0
              rw [h3] at e1
              rw [h4] at e2
              rw [h5] at e3
              simp only at e1 e2 e3
              simp [FSM.TriggerCore, h1, h2, h3, h4, h5, e1 trivial, e2 trivial, e3 trivial, Nat.zero_add]
            · simp [FSM.TriggerCore, h1, h2, h3, h4, h5] at h
          · simp [FSM.TriggerCore, h1, h2, h3, h4] at h
        · simp [FSM.TriggerCore, h1, h2, h3] at h
      · simp [FSM.TriggerCore, h1, h2] at h

lemma triggerCore_no_commit (f : FSM) (event : Event)
    (h : (f.TriggerCore event).res ≠ .ok) :
    Ev.commit ∉ (f.TriggerCore event).trace := by
  rcases h1 : alookup f.transitions f.current with _ | ts
  · simp [FSM.TriggerCore, h1]
  · rcases h2 : collectMatches ts event f.ctx with m | matched
    · simp [FSM.TriggerCore, h1, h2]
    · rcases matched with _ | ⟨t, _ | ⟨t2, rest⟩⟩
      · simp [FSM.TriggerCore, h1, h2]
      · rcases h3 : runCbs (Ev.exit f.current) "OnExit" f.current
            ((alookup f.onExit f.current).getD [])
            { f.ctx with state := f.current } 0 with ⟨(_ | e1), ctx2, tr1⟩
        · rcases h4 : runHooks f.current t.tgt event f.onTransition
              { ctx2 with state := t.tgt } 0 with ⟨(_ | e2), ctx4, tr2⟩
          · rcases h5 : runCbs (Ev.enter t.tgt) "OnEnter" t.tgt
                ((alookup f.onEnter t.tgt).getD []) ctx4 0 with ⟨(_ | e3), ctx5, tr3⟩
            · exfalso
              apply h
              simp [FSM.TriggerCore, h1, h2, h3, h4, h5]
            · simp only [FSM.TriggerCore, h1, h2, h3, h4, h5, List.mem_append]
              intro hc
              rcases hc with (hc | hc) | hc
              · obtain ⟨j, hj⟩ := by
                  have := runCbs_trace_mem (Ev.exit f.current) "OnExit" f.current
                    ((alookup f.onExit f.current).getD [])
                    { f.ctx with state := f.current } 0 Ev.commit
                  rw [h3] at this
                  exact this hc
                exact Ev.noConfusion hj
              · obtain ⟨j, hj⟩ := by
                  have := runHooks_trace_mem f.current t.tgt event f.onTransition
                    { ctx2 with state := t.tgt } 0 Ev.commit
                  rw [h4] at this
                  exact this hc
                exact Ev.noConfusion hj
              · obtain ⟨j, hj⟩ := by
                  have := runCbs_trace_mem (Ev.enter t.tgt) "OnEnter" t.tgt
                    ((alookup f.onEnter t.tgt).getD []) ctx4 0 Ev.commit
                  rw [h5] at this
                  exact this hc
                exact Ev.noConfusion hj
          · simp only [FSM.TriggerCore, h1, h2, h3, h4, List.mem_append]
            intro hc
            rcases hc with hc | hc
            · obtain ⟨j, hj⟩ := by
                have := runCbs_trace_mem (Ev.exit f.current) "OnExit" f.current
                  ((alookup f.onExit f.current).getD [])
                  { f.ctx with state := f.current } 0 Ev.commit
                rw [h3] at this
                exact this hc
              exact Ev.noConfusion hj
            · obtain ⟨j, hj⟩ := by
                have := runHooks_trace_mem f.current t.tgt event f.onTransition
                  { ctx2 with state := t.tgt } 0 Ev.commit
                rw [h4] at this
                exact this hc
              exact Ev.noConfusion hj
        · simp only [FSM.TriggerCore, h1, h2, h3]
          intro hc
          obtain ⟨j, hj⟩ := by
            have := runCbs_trace_mem (Ev.exit f.current) "OnExit" f.current
              ((alookup f.onExit f.current).getD [])
              { f.ctx with state := f.current } 0 Ev.commit
            rw [h3] at this
            exact this hc
          exact Ev.noConfusion hj
      · simp [FSM.TriggerCore, h1, h2]

lemma triggerCore_ok_state (f : FSM) (event : Event) (htame : f.stateTame)
    (h : (f.TriggerCore event).res = .ok) :
    (f.TriggerCore event).fsm.ctx.state = (f.TriggerCore event).fsm.current := by
  obtain ⟨hexit, henter, hhooks⟩ := htame
  rcases h1 : alookup f.transitions f.current with _ | ts
  · simp [FSM.TriggerCore, h1] at h
  · rcases h2 : collectMatches ts event f.ctx with m | matched
    · simp [FSM.TriggerCore, h1, h2] at h
    · rcases matched with _ | ⟨t, _ | ⟨t2, rest⟩⟩
      · simp [FSM.TriggerCore, h1, h2] at h
      · rcases h3 : runCbs (Ev.exit f.current) "OnExit" f.current
            ((alookup f.onExit f.current).getD [])
            { f.ctx with state := f.current } 0 with ⟨(_ | e1), ctx2, tr1⟩
        · rcases h4 : runHooks f.current t.tgt event f.onTransition
              { ctx2 with state := t.tgt } 0 with ⟨(_ | e2), ctx4, tr2⟩
          · rcases h5 : runCbs (Ev.enter t.tgt) "OnEnter" t.tgt
                ((alookup f.onEnter t.tgt).getD []) ctx4 0 with ⟨(_ | e3), ctx5, tr3⟩
            · have s5 : ctx5.state = ctx4.state := by
                have := runCbs_keeps Ctx.state (Ev.enter t.tgt) "OnEnter" t.tgt
                  ((alookup f.onEnter t.tgt).getD [])
                  (fun cb hcb => henter t.tgt cb hcb) ctx4 0
                rw [h5] at this
                exact this
              have s4 : ctx4.state = t.tgt := by
                have := runHooks_keeps Ctx.state f.current t.tgt event f.onTransition
                  (fun hk hhk => hhooks hk hhk f.current t.tgt event)
                  { ctx2 with state := t.tgt } 0
                rw [h4] at this
                exact this
              simp [FSM.TriggerCore, h1, h2, h3, h4, h5, s5, s4]
            · simp [FSM.TriggerCore, h1, h2, h3, h4, h5] at h
          · simp [FSM.TriggerCore, h1, h2, h3, h4] at h
        · simp [FSM.TriggerCore, h1, h2, h3] at h
      · simp [FSM.TriggerCore, h1, h2] at h

lemma triggerCore_input (f : FSM) (event : Event) (htame : f.inputTame) :
    (f.TriggerCore event).fsm.ctx.input = f.ctx.input := by
  obtain ⟨hexit, henter, hhooks⟩ := htame
  rcases h1 : alookup f.transitions f.current with _ | ts
  · simp [FSM.TriggerCore, h1]
  · rcases h2 : collectMatches ts event f.ctx with m | matched
    · simp [FSM.TriggerCore, h1, h2]
    · rcases matched with _ | ⟨t, _ | ⟨t2, rest⟩⟩
      · simp [FSM.TriggerCore, h1, h2]
      · rcases h3 : runCbs (Ev.exit f.current) "OnExit" f.current
            ((alookup f.onExit f.current).getD [])
            { f.ctx with state := f.current } 0 with ⟨(_ | e1), ctx2, tr1⟩
        · have i2 : ctx2.input = f.ctx.input := by
            have := runCbs_keeps Ctx.input (Ev.exit f.current) "OnExit" f.current
              ((alookup f.onExit f.current).getD [])
              (fun cb hcb => hexit f.current cb hcb)
              { f.ctx with state := f.current } 0
            rw [h3] at this
            exact this
          rcases h4 : runHooks f.current t.tgt event f.onTransition
              { ctx2 with state := t.tgt } 0 with ⟨(_ | e2), ctx4, tr2⟩
          · have i4 : ctx4.input = ctx2.input := by
              have := runHooks_keeps Ctx.input f.current t.tgt event f.onTransition
                (fun hk hhk => hhooks hk hhk f.current t.tgt event)
                { ctx2 with state := t.tgt } 0
              rw [h4] at this
              exact this
            rcases h5 : runCbs (Ev.enter t.tgt) "OnEnter" t.tgt
                ((alookup f.onEnter t.tgt).getD []) ctx4 0 with ⟨(_ | e3), ctx5, tr3⟩
            · have i5 : ctx5.input = ctx4.input := by
                have := runCbs_keeps Ctx.input (Ev.enter t.tgt) "OnEnter" t.tgt
                  ((alookup f.onEnter t.tgt).getD [])
                  (fun cb hcb => henter t.tgt cb hcb) ctx4 0
                rw [h5] at this
                exact this
              simp only [FSM.TriggerCore, h1, h2, h3, h4, h5]
              simp [i5, i4, i2]
            · have i5 : ctx5.input = ctx4.input := by
                have := runCbs_keeps Ctx.input (Ev.enter t.tgt) "OnEnter" t.tgt
                  ((alookup f.onEnter t.tgt).getD [])
                  (fun cb hcb => henter t.tgt cb hcb) ctx4 0
                rw [h5] at this
                exact this
              simp only [FSM.TriggerCore, h1, h2, h3, h4, h5]
              simp [i5, i4, i2]
          · have i4 : ctx4.input = ctx2.input := by
              have := runHooks_keeps Ctx.input f.current t.tgt event f.onTransition
                (fun hk hhk => hhooks hk hhk f.current t.tgt event)
                { ctx2 with state := t.tgt } 0
              rw [h4] at this
              exact this
            simp only [FSM.TriggerCore, h1, h2, h3, h4]
            simp [i4, i2]
        · have i2 : ctx2.input = f.ctx.input := by
            have := runCbs_keeps Ctx.input (Ev.exit f.current) "OnExit" f.current
              ((alookup f.onExit f.current).getD [])
              (fun cb hcb => hexit f.current cb hcb)
              { f.ctx with state := f.current } 0
            rw [h3] at this
            exact this
          simp only [FSM.TriggerCore, h1, h2, h3]
          simp [i2]
      · simp [FSM.TriggerCore, h1, h2]

lemma find?_first {α : Type} (p : α → Bool) :
    ∀ (l : List α) (k : Nat) (hk : k < l.length),
      p (l.get ⟨k, hk⟩) = true →
      (∀ j, (hj : j < k) → p (l.get ⟨j, by omega⟩) = false) →
      l.find? p = some (l.get ⟨k, hk⟩) := by
  intro l
  induction l with
  | nil => intro k hk; simp at hk
  | cons a rest ih =>
    intro k hk hp hbefore
    cases k with
    | zero =>
      simp only [List.get] at hp
      simp [List.find?, hp]
    | succ k' =>
      have ha : p a = false := hbefore 0 (Nat.succ_pos k')
      simp only [List.find?, ha]
      exact ih k' (by simpa using hk) hp
        (fun j hj => hbefore (j + 1) (by omega))


lemma triggerCore_fault_src (f : FSM) (event : Event) (m : String)
    (h : (f.TriggerCore event).res = .fault m) :
    ∃ ts, alookup f.transitions f.current = some ts ∧
      collectMatches ts event f.ctx = .error m := by
  rcases h1 : alookup f.transitions f.current with _ | ts
  · simp [FSM.TriggerCore, h1] at h
  · rcases h2 : collectMatches ts event f.ctx with m' | matched
    · have hm : m' = m := by
        simp only [FSM.TriggerCore, h1, h2] at h
        simpa using h
      subst hm
      exact ⟨ts, by simp [h1], h2⟩
    · rcases matched with _ | ⟨t, _ | ⟨t2, rest⟩⟩
      · simp [FSM.TriggerCore, h1, h2] at h
      · rcases h3 : runCbs (Ev.exit f.current) "OnExit" f.current
            ((alookup f.onExit f.current).getD [])
            { f.ctx with state := f.current } 0 with ⟨(_ | e1), ctx2, tr1⟩
        · rcases h4 : runHooks f.current t.tgt event f.onTransition
              { ctx2 with state := t.tgt } 0 with ⟨(_ | e2), ctx4, tr2⟩
          · rcases h5 : runCbs (Ev.enter t.tgt) "OnEnter" t.tgt
                ((alookup f.onEnter t.tgt).getD []) ctx4 0 with ⟨(_ | e3), ctx5, tr3⟩
            · simp [FSM.TriggerCore, h1, h2, h3, h4, h5] at h
            · simp [FSM.TriggerCore, h1, h2, h3, h4, h5] at h
          · simp [FSM.TriggerCore, h1, h2, h3, h4] at h
        · simp [FSM.TriggerCore, h1, h2, h3] at h
      · simp [FSM.TriggerCore, h1, h2] at h

lemma unmarshal_cases (f : FSM) (raw : RawPayload) :
    (f.UnmarshalJSON raw).1 = .ok () ∨ (f.UnmarshalJSON raw).2 = f := by
  unfold FSM.UnmarshalJSON
  repeat' split
  all_goals simp

/-- C2: whenever `Trigger` returns an error of any kind, `current` and
`history` are exactly their pre-call values. -/
theorem trigger_error_frame (f : FSM) (event : Event) (input : List (Option String))
    (e : Err) (h : (f.Trigger event input).res = .err e) :
    (f.Trigger event input).fsm.current = f.current ∧
      (f.Trigger event input).fsm.history = f.history := by
  unfold FSM.Trigger at h ⊢
  rcases triggerCore_frame { f with ctx := { f.ctx with input := firstInput input } } event
      with hok | hframe
  · rw [hok] at h
    exact absurd h (by simp)
  · simpa using hframe

/-- Witness for C2: a trigger failing in an entry callback leaves
`current`/`history` untouched. -/
theorem trigger_error_frame_w :
    (demoFail.Trigger "go" []).fsm.current = demoFail.current ∧
      (demoFail.Trigger "go" []).fsm.history = demoFail.history :=
  trigger_error_frame demoFail "go" [] (.callback "OnEnter" "b" "nope") (by decide)

/-- C3: zero guard-passing matches (or a missing transition list) yields
`InvalidTransition{current, event}`; more than one guard-passing match
yields `AmbiguousTransition{current, event}` — the engine never silently
picks a winner. -/
theorem trigger_match_errors (f : FSM) (event : Event) (input : List (Option String)) :
    (alookup f.transitions f.current = none →
      (f.Trigger event input).res = .err (.invalidTransition f.current event)) ∧
    (∀ ts, alookup f.transitions f.current = some ts →
      noGuardPanic ts event { f.ctx with input := firstInput input } →
      (specMatches ts event { f.ctx with input := firstInput input } = [] →
        (f.Trigger event input).res = .err (.invalidTransition f.current event)) ∧
      (2 ≤ (specMatches ts event { f.ctx with input := firstInput input }).length →
        (f.Trigger event input).res = .err (.ambiguousTransition f.current event))) := by
  constructor
  · intro h
    simp [FSM.Trigger, FSM.TriggerCore, h]
  · intro ts hts hnp
    have hcm := collectMatches_eq_spec ts event { f.ctx with input := firstInput input } hnp
    constructor
    · intro hempty
      rw [hempty] at hcm
      simp [FSM.Trigger, FSM.TriggerCore, hts, hcm]
    · intro hlen
      rcases hsm : specMatches ts event { f.ctx with input := firstInput input }
          with _ | ⟨t1, _ | ⟨t2, rest⟩⟩
      · rw [hsm] at hlen
        simp at hlen
      · rw [hsm] at hlen
        simp at hlen
      · rw [hsm] at hcm
        simp [FSM.Trigger, FSM.TriggerCore, hts, hcm]

/-- Witness for C3: the two-match configuration is rejected as ambiguous,
and a zero-match event is rejected as invalid. -/
theorem trigger_match_errors_w :
    (demoAmb.Trigger "go" []).res = .err (.ambiguousTransition "a" "go") ∧
      (demoAmb.Trigger "bogus" []).res = .err (.invalidTransition "a" "bogus") := by
  have hnp1 : noGuardPanic [⟨"go", "b", none⟩, ⟨"go", "c", none⟩] "go"
      { demoAmb.ctx with input := firstInput [] } := by
    intro t ht hev g hg
    simp only [List.mem_cons, List.not_mem_nil, or_false] at ht
    rcases ht with rfl | rfl <;> simp at hg
  have hnp2 : noGuardPanic [⟨"go", "b", none⟩, ⟨"go", "c", none⟩] "bogus"
      { demoAmb.ctx with input := firstInput [] } := by
    intro t ht hev g hg
    simp only [List.mem_cons, List.not_mem_nil, or_false] at ht
    rcases ht with rfl | rfl <;> simp at hg
  constructor
  · exact ((trigger_match_errors demoAmb "go" []).2
      [⟨"go", "b", none⟩, ⟨"go", "c", none⟩] rfl hnp1).2 (by decide)
  · exact ((trigger_match_errors demoAmb "bogus" []).2
      [⟨"go", "b", none⟩, ⟨"go", "c", none⟩] rfl hnp2).1 rfl

/-- C1: a successful trigger runs the source's exit callbacks in
registration order, then every global hook in registration order, then
the target's entry callbacks in registration order, and commits
(`current := next`, `history := history ++ [next]`) only after all of
them; a failed trigger never reaches the commit point and leaves
`current`/`history` unchanged. -/
theorem trigger_order_and_commit (f : FSM) (event : Event) (input : List (Option String)) :
    ((f.Trigger event input).res = .ok →
      ∃ next,
        (f.Trigger event input).fsm.current = next ∧
        (f.Trigger event input).fsm.history = f.history ++ [next] ∧
        (f.Trigger event input).trace =
          (List.range ((alookup f.onExit f.current).getD []).length).map (Ev.exit f.current)
            ++ (List.range f.onTransition.length).map Ev.hook
            ++ (List.range ((alookup f.onEnter next).getD []).length).map (Ev.enter next)
            ++ [Ev.commit]) ∧
    ((f.Trigger event input).res ≠ .ok →
      Ev.commit ∉ (f.Trigger event input).trace ∧
      (f.Trigger event input).fsm.current = f.current ∧
      (f.Trigger event input).fsm.history = f.history) := by
  constructor
  · intro h
    unfold FSM.Trigger at h ⊢
    obtain ⟨next, hcur, hhist, htr⟩ :=
      triggerCore_ok_spec { f with ctx := { f.ctx with input := firstInput input } } event h
    exact ⟨next, hcur, hhist, htr⟩
  · intro h
    unfold FSM.Trigger at h ⊢
    refine ⟨triggerCore_no_commit _ event h, ?_⟩
    rcases triggerCore_frame { f with ctx := { f.ctx with input := firstInput input } } event
        with hok | hframe
    · exact absurd hok h
    · simpa using hframe

/-- Witness for C1: the concrete engine `demoOk` triggers successfully
with the expected trace and committed state. -/
theorem trigger_order_and_commit_w :
    (demoOk.Trigger "go" []).res = .ok ∧
      ∃ next,
        (demoOk.Trigger "go" []).fsm.current = next ∧
        (demoOk.Trigger "go" []).fsm.history = demoOk.history ++ [next] ∧
        (demoOk.Trigger "go" []).trace =
          (List.range ((alookup demoOk.onExit demoOk.current).getD []).length).map
              (Ev.exit demoOk.current)
            ++ (List.range demoOk.onTransition.length).map Ev.hook
            ++ (List.range ((alookup demoOk.onEnter next).getD []).length).map (Ev.enter next)
            ++ [Ev.commit] :=
  ⟨by decide, (trigger_order_and_commit demoOk "go" []).1 (by decide)⟩

/-- C4 counterexample: a runtime fault raised inside a guard is not
caught — it unwinds raw out of `Trigger` instead of becoming a
`CallbackError`. -/
theorem guard_fault_escapes_raw :
    (demoGuardFault.Trigger "go" []).res = .fault "boom" := by decide

/-- C4 amended: runtime faults in exit/entry callbacks and transition
hooks are contained and converted to `CallbackError`; provided no guard
of the current state's transitions faults, `Trigger` never lets a
runtime fault escape. -/
theorem trigger_contains_callback_faults (f : FSM) (event : Event)
    (input : List (Option String))
    (hg : ∀ ts, alookup f.transitions f.current = some ts →
      noGuardPanic ts event { f.ctx with input := firstInput input }) :
    ∀ m, (f.Trigger event input).res ≠ .fault m := by
  intro m h
  unfold FSM.Trigger at h
  obtain ⟨ts, hts, hcm⟩ := triggerCore_fault_src _ event m h
  have := collectMatches_eq_spec ts event { f.ctx with input := firstInput input } (hg ts hts)
  rw [this] at hcm
  exact Except.noConfusion hcm

/-- Witness for C4 amended: with a faulting entry callback and no
guards, `Trigger` returns a `CallbackError` rather than letting the
fault escape. -/
theorem trigger_contains_callback_faults_w :
    (demoCbFault.Trigger "go" []).res ≠ .fault "kaboom" :=
  trigger_contains_callback_faults demoCbFault "go" []
    (by
      intro ts hts
      have h0 : alookup demoCbFault.transitions demoCbFault.current =
          some [⟨"go", "b", none⟩] := rfl
      rw [h0] at hts
      obtain rfl := (Option.some.inj hts).symm
      intro t ht hev g hg
      simp only [List.mem_singleton] at ht
      subst ht
      simp at hg)
    "kaboom"

/-- C10: `Trigger` overwrites `Context.Input` first and unconditionally —
the pre-call value of `Context.Input` is irrelevant to the entire call —
setting it to the first supplied input, or to nil when none is given;
and (as long as the caller-supplied code does not itself reassign
`Context.Input`) the overwritten value persists after the call whether
the trigger succeeds or fails — it is never rolled back. -/
theorem trigger_input_overwrite (f : FSM) (event : Event) (input : List (Option String)) :
    (∀ v, ({ f with ctx := { f.ctx with input := v } }).Trigger event input =
      f.Trigger event input) ∧
    (f.inputTame → (f.Trigger event input).fsm.ctx.input = firstInput input) := by
  constructor
  · intro v
    rfl
  · intro ht
    unfold FSM.Trigger
    have h := triggerCore_input { f with ctx := { f.ctx with input := firstInput input } }
      event ht
    simpa using h

/-- Engine `demoOk`'s callbacks and hook never reassign `Context.Input`. -/
lemma demoOk_inputTame : demoOk.inputTame := by
  refine ⟨?_, ?_, ?_⟩
  · intro s cb hcb
    have h0 : demoOk.onExit = [("a", [cbOk])] := rfl
    rw [h0] at hcb
    simp only [alookup] at hcb
    by_cases h : (("a" : State) == s)
    · simp [h] at hcb
      subst hcb
      intro c
      rfl
    · simp [h] at hcb
  · intro s cb hcb
    have h0 : demoOk.onEnter = [("b", [cbOk])] := rfl
    rw [h0] at hcb
    simp only [alookup] at hcb
    by_cases h : (("b" : State) == s)
    · simp [h] at hcb
      subst hcb
      intro c
      rfl
    · simp [h] at hcb
  · intro hk hhk
    have h0 : demoOk.onTransition = [hookOk] := rfl
    rw [h0] at hhk
    simp only [List.mem_singleton] at hhk
    subst hhk
    intro p n e c
    rfl

/-- Witness for C10: triggering with two variadic inputs stores the
first one in `Context.Input`, and it is still there after the call. -/
theorem trigger_input_overwrite_w :
    (demoOk.Trigger "go" [some "x", some "y"]).fsm.ctx.input =
      firstInput [some "x", some "y"] :=
  (trigger_input_overwrite demoOk "go" [some "x", some "y"]).2 demoOk_inputTame

/-- C5: snapshot decode fails with `UnknownState` naming the decoded
current state when it is not configured, and with `UnknownState` naming
the first offending history entry otherwise; every parse or validation
failure leaves the target engine completely unchanged. -/
theorem decode_validation (f : FSM) (raw : RawPayload) :
    (∀ e, (f.UnmarshalJSON raw).1 = .error e → (f.UnmarshalJSON raw).2 = f) ∧
    (∀ st, parsePayload raw = .ok st →
      (f.stateContains st.current = false →
        (f.UnmarshalJSON raw).1 = .error (.unknownState st.current)) ∧
      (f.stateContains st.current = true →
        ∀ k, (hk : k < st.history.length) →
          f.stateContains (st.history.get ⟨k, hk⟩) = false →
          (∀ j, (hj : j < k) → f.stateContains (st.history.get ⟨j, by omega⟩) = true) →
          (f.UnmarshalJSON raw).1 =
            .error (.unknownState (st.history.get ⟨k, hk⟩)))) := by
  constructor
  · intro e h
    rcases unmarshal_cases f raw with hok | hfr
    · rw [hok] at h
      exact Except.noConfusion h
    · exact hfr
  · intro st hp
    constructor
    · intro hcur
      unfold FSM.UnmarshalJSON
      simp [hp, hcur]
    · intro hcur k hk hbad hbefore
      have hfind : st.history.find? (fun s => !(f.stateContains s)) =
          some (st.history.get ⟨k, hk⟩) := by
        apply find?_first
        · simp only [List.get_eq_getElem] at hbad
          simp [hbad]
        · intro j hj
          have := hbefore j hj
          simp only [List.get_eq_getElem] at this
          simp [this]
      unfold FSM.UnmarshalJSON
      simp [hp, hcur, hfind]

/-- Witness for C5: decoding `pl5` into `E5` fails with `UnknownState`
on the first offending history entry and leaves `E5` unchanged. -/
theorem decode_validation_w :
    (E5.UnmarshalJSON pl5).1 = .error (.unknownState "zzz") ∧
      (E5.UnmarshalJSON pl5).2 = E5 := by
  have h := decode_validation E5 pl5
  have hfail : (E5.UnmarshalJSON pl5).1 = .error (.unknownState "zzz") :=
    (h.2 ⟨"idle", ["idle", "zzz"], [], []⟩ rfl).2 rfl 1 (by decide) rfl
      (fun j hj => by
        have hj0 : j = 0 := by omega
        subst hj0
        rfl)
  exact ⟨hfail, h.1 (.unknownState "zzz") hfail⟩

/-- C6 amended: the snapshot round-trip law holds for every engine whose
current state and history entries all lie in the configured state set
(which every operation except `SetState` with an unconfigured state
preserves): decoding the encoding of `E` into any `E'` sharing `E`'s
configuration succeeds and reproduces `current`, `history`, `Data`,
`Meta`. -/
theorem decode_encode_roundtrip (E E' : FSM) (hcfg : sameConfig E E')
    (hc : E.stateContains E.current = true)
    (hh : ∀ s ∈ E.history, E.stateContains s = true) :
    (E'.UnmarshalJSON E.MarshalJSON).1 = .ok () ∧
    (E'.UnmarshalJSON E.MarshalJSON).2.current = E.current ∧
    (E'.UnmarshalJSON E.MarshalJSON).2.history = E.history ∧
    (E'.UnmarshalJSON E.MarshalJSON).2.ctx.data = E.ctx.data ∧
    (E'.UnmarshalJSON E.MarshalJSON).2.ctx.meta = E.ctx.meta := by
  have hp : parsePayload E.MarshalJSON =
      .ok ⟨E.current, E.history, E.ctx.data, E.ctx.meta⟩ := rfl
  have hc' : E'.stateContains E.current = true := by
    rw [← stateContains_congr E E' hcfg]
    exact hc
  have hfind : E.history.find? (fun s => !(E'.stateContains s)) = none := by
    apply List.find?_eq_none.mpr
    intro x hx
    rw [← stateContains_congr E E' hcfg x]
    simp [hh x hx]
  unfold FSM.UnmarshalJSON
  simp [hp, hc', hfind]

/-- Witness for C6 amended: the round trip through a fresh clone of the
configuration reproduces the triggered engine's observable state. -/
theorem decode_encode_roundtrip_w :
    ((demoRtBase.Clone).UnmarshalJSON demoRt.MarshalJSON).1 = .ok () ∧
    ((demoRtBase.Clone).UnmarshalJSON demoRt.MarshalJSON).2.current = demoRt.current ∧
    ((demoRtBase.Clone).UnmarshalJSON demoRt.MarshalJSON).2.history = demoRt.history ∧
    ((demoRtBase.Clone).UnmarshalJSON demoRt.MarshalJSON).2.ctx.data = demoRt.ctx.data ∧
    ((demoRtBase.Clone).UnmarshalJSON demoRt.MarshalJSON).2.ctx.meta = demoRt.ctx.meta :=
  decode_encode_roundtrip demoRt (demoRtBase.Clone)
    ⟨rfl, rfl, rfl, rfl, rfl⟩ (by decide) (by decide)

/-- C6 counterexample: after `SetState("bogus")` — a public operation —
the engine's snapshot no longer decodes into a same-configuration
engine: the round-trip law fails as stated for this engine. -/
theorem roundtrip_fails_after_setstate :
    sameConfig (demoRtBase.SetState "bogus") demoRtBase ∧
      (demoRtBase.UnmarshalJSON (demoRtBase.SetState "bogus").MarshalJSON).1 =
        .error (.unknownState "bogus") :=
  ⟨⟨rfl, rfl, rfl, rfl, rfl⟩, rfl⟩

/-- C7 amended: a malformed payload fails decode with a parse error, and
every decode failure leaves the target engine completely unchanged; but
a well-formed payload with missing fields is not rejected — each missing
field is zero-filled, so such payloads can be accepted. -/
theorem decode_reject_malformed (f : FSM) :
    (∀ m, f.UnmarshalJSON (.malformed m) = (.error (.parse m), f)) ∧
    (∀ raw e, (f.UnmarshalJSON raw).1 = .error e → (f.UnmarshalJSON raw).2 = f) := by
  constructor
  · intro m
    rfl
  · intro raw e h
    rcases unmarshal_cases f raw with hok | hfr
    · rw [hok] at h
      exact Except.noConfusion h
    · exact hfr

/-- Witness for C7 amended: malformed input is rejected leaving the
engine untouched, and so does the validation failure on `pl5`. -/
theorem decode_reject_malformed_w :
    E5.UnmarshalJSON (.malformed "junk") = (.error (.parse "junk"), E5) ∧
      (E5.UnmarshalJSON pl5).2 = E5 :=
  ⟨(decode_reject_malformed E5).1 "junk",
   (decode_reject_malformed E5).2 pl5 (.unknownState "zzz") rfl⟩

/-- C7 counterexample: a payload lacking the `meta` field entirely is
accepted by decode (the missing field is zero-filled), contradicting
"a payload lacking one of the four fields is never accepted". -/
theorem missing_field_payload_accepted :
    ((New "idle").UnmarshalJSON
      (.wellFormed { current := some "idle", history := some ["idle"],
                     data := some [], meta := none })).1 = .ok () := rfl

lemma callEnter_frame (f : FSM) (s : State) :
    (f.CallEnter s).2.history = f.history ∧ (f.CallEnter s).2.current = f.current ∧
      (f.CallEnter s).2.initial = f.initial := by
  unfold FSM.CallEnter
  repeat' split
  all_goals simp

lemma applyOp_histInv (f : FSM) (op : Op) (h : histInv f) : histInv (applyOp f op) := by
  obtain ⟨hne, hhead⟩ := h
  cases op with
  | trigger ev inp =>
    simp only [applyOp]
    unfold FSM.Trigger
    have hinit := triggerCore_initial
      { f with ctx := { f.ctx with input := firstInput inp } } ev
    rcases triggerCore_history { f with ctx := { f.ctx with input := firstInput inp } } ev
        with hsame | ⟨s, happ⟩
    · simp only at hsame
      exact ⟨by rw [hsame]; exact hne, by rw [hsame, hinit]; exact hhead⟩
    · simp only at happ
      constructor
      · rw [happ]
        simp
      · rw [happ, hinit]
        obtain ⟨a, t, hcons⟩ := List.exists_cons_of_ne_nil hne
        rw [hcons] at hhead ⊢
        simpa using hhead
  | reset => exact ⟨by simp [applyOp, FSM.Reset], by simp [applyOp, FSM.Reset]⟩
  | setState s => exact ⟨hne, hhead⟩
  | callEnter s =>
    obtain ⟨hh, _, hi⟩ := callEnter_frame f s
    exact ⟨by simp only [applyOp]; rw [hh]; exact hne,
           by simp only [applyOp]; rw [hh, hi]; exact hhead⟩
  | transitionWhen src ev tgt g => exact ⟨hne, hhead⟩
  | onEnter s cb => exact ⟨hne, hhead⟩
  | onExit s cb => exact ⟨hne, hhead⟩
  | onTransition hk => exact ⟨hne, hhead⟩

lemma runOps_histInv : ∀ (ops : List Op) (f : FSM), histInv f → histInv (runOps f ops)
  | [], _, h => h
  | op :: rest, f, h => runOps_histInv rest (applyOp f op) (applyOp_histInv f op h)

/-- C8 amended: through any sequence of `Trigger`, `Reset`, `SetState`,
`CallEnter` and configuration calls from construction, the history stays
non-empty with the initial state as its first element; snapshot decode
is excluded because it replaces the history wholesale with the decoded
one, which need not start at the initial state. -/
theorem history_head_invariant (s : State) (ops : List Op) :
    (runOps (New s) ops).history ≠ [] ∧
      (runOps (New s) ops).history.head? = some (runOps (New s) ops).initial :=
  runOps_histInv ops (New s) ⟨by simp [New], rfl⟩

/-- C8 counterexample: one successful snapshot decode after construction
yields an engine whose history does not start with the initial state. -/
theorem decode_breaks_history_head :
    (E8.UnmarshalJSON pl8).1 = .ok () ∧
      (E8.UnmarshalJSON pl8).2.history.head? ≠ some (E8.UnmarshalJSON pl8).2.initial :=
  ⟨rfl, by decide⟩

/-- C9 amended: `current == Context.State` holds after `Reset`,
`SetState`, a successful decode, and a successful `Trigger` whose
callbacks do not themselves reassign `Context.State`; it does not
survive `CallEnter` of a non-current state or a trigger failing in the
hook/entry phase. -/
theorem current_matches_ctx_state (f : FSM) :
    ((f.Reset).current = (f.Reset).ctx.state) ∧
    (∀ s, (f.SetState s).current = (f.SetState s).ctx.state) ∧
    (∀ raw, (f.UnmarshalJSON raw).1 = .ok () →
      (f.UnmarshalJSON raw).2.current = (f.UnmarshalJSON raw).2.ctx.state) ∧
    (∀ event input, f.stateTame → (f.Trigger event input).res = .ok →
      (f.Trigger event input).fsm.current = (f.Trigger event input).fsm.ctx.state) := by
  refine ⟨rfl, fun s => rfl, ?_, ?_⟩
  · intro raw h
    rcases hp : parsePayload raw with e | st
    · simp [FSM.UnmarshalJSON, hp] at h
    · rcases hcont : f.stateContains st.current with _ | _
      · simp [FSM.UnmarshalJSON, hp, hcont] at h
      · rcases hfind : st.history.find? (fun s => !(f.stateContains s)) with _ | s0
        · simp [FSM.UnmarshalJSON, hp, hcont, hfind]
        · simp [FSM.UnmarshalJSON, hp, hcont, hfind] at h
  · intro ev inp htame h
    unfold FSM.Trigger at h ⊢
    exact (triggerCore_ok_state { f with ctx := { f.ctx with input := firstInput inp } }
      ev htame h).symm

/-- Engine `demoOk`'s callbacks and hook never reassign `Context.State`. -/
lemma demoOk_stateTame : demoOk.stateTame := by
  refine ⟨?_, ?_, ?_⟩
  · intro s cb hcb
    have h0 : demoOk.onExit = [("a", [cbOk])] := rfl
    rw [h0] at hcb
    simp only [alookup] at hcb
    by_cases h : (("a" : State) == s)
    · simp [h] at hcb
      subst hcb
      intro c
      rfl
    · simp [h] at hcb
  · intro s cb hcb
    have h0 : demoOk.onEnter = [("b", [cbOk])] := rfl
    rw [h0] at hcb
    simp only [alookup] at hcb
    by_cases h : (("b" : State) == s)
    · simp [h] at hcb
      subst hcb
      intro c
      rfl
    · simp [h] at hcb
  · intro hk hhk
    have h0 : demoOk.onTransition = [hookOk] := rfl
    rw [h0] at hhk
    simp only [List.mem_singleton] at hhk
    subst hhk
    intro p n e c
    rfl

/-- Witness for C9 amended: after `Reset` and after a successful trigger
of `demoOk`, `current` and `Context.State` agree. -/
theorem current_matches_ctx_state_w :
    (demoOk.Reset).current = (demoOk.Reset).ctx.state ∧
      (demoOk.Trigger "go" []).fsm.current = (demoOk.Trigger "go" []).fsm.ctx.state :=
  ⟨(current_matches_ctx_state demoOk).1,
   (current_matches_ctx_state demoOk).2.2.2 "go" [] demoOk_stateTame (by decide)⟩

/-- C9 counterexample: `CallEnter` of a non-current state completes
without error yet leaves `Context.State` different from `current`. -/
theorem callenter_desyncs_state :
    ((New "a").CallEnter "b").1 = none ∧
      ((New "a").CallEnter "b").2.current ≠ ((New "a").CallEnter "b").2.ctx.state :=
  ⟨rfl, by decide⟩
